import Mathlib

/-!
Verification of the market-monitoring pipeline of `web/services/monitor.py`
(class `MarketMonitor`), `web/services/scan.py` (class `MarketScanner`) and
`web/analysis/levels_finder.py` (class `LevelsFinder`).

Shallow embedding conventions:
* Python floats are modelled as rationals (`ℚ`).
* Python `dict`s keyed by symbol are modelled as functions `String → Option β`
  (`none` means the key is absent; indexing a missing key raises `KeyError`,
  which the source catches, so the modelled operation leaves the state
  unchanged in that case).
* `collections.deque(maxlen = c)` is modelled as a `List` together with the
  append operation `dequeAppend c`, which drops the oldest entry when the
  buffer is at capacity.
* Network / indicator-library calls (`talib`, REST, pandas) are external
  collaborators; their outputs are taken as parameters of the modelled
  functions.
-/

/-- One candle, as stored by `MarketMonitor._handle_kline_data`:
`{'open_time', 'open', 'high', 'low', 'close', 'volume'}`. -/
structure Candle where
  openTime : ℤ
  openP : ℚ
  highP : ℚ
  lowP : ℚ
  closeP : ℚ
  volume : ℚ
deriving DecidableEq, Repr

/-- One depth sample, as stored by `MarketMonitor._handle_depth_data`:
`{'time', 'bid_volume', 'ask_volume'}`. -/
structure DepthSample where
  time : ℚ
  bidVolume : ℚ
  askVolume : ℚ
deriving DecidableEq, Repr

/-- `collections.deque(maxlen := c).append x`: if the buffer is at capacity,
the oldest entry (index 0) is evicted before appending.  For a buffer whose
length is at most `c` (the only states a `deque` can reach),
`buf.length + 1 - c` is `0` below capacity and `1` at capacity. -/
def dequeAppend (c : ℕ) (buf : List α) (x : α) : List α :=
  buf.drop (buf.length + 1 - c) ++ [x]

/-- The buffer obtained by starting from the fresh empty `deque(maxlen := c)`
and appending every item of `items` in order. -/
def pushAll (c : ℕ) (items : List α) : List α :=
  items.foldl (dequeAppend c) []

/-- Key levels as returned by `CryptoAnalyzer.analyze_key_level` /
`LevelsFinder.find_key_levels`: `{'resistances': [...], 'supports': [...]}`. -/
structure KeyLevels where
  resistances : List ℚ
  supports : List ℚ
deriving DecidableEq, Repr

/-- `latest_data[symbol] = {'price': ..., 'volume': ...}` as written by
`MarketMonitor._handle_kline_data`. -/
structure LatestData where
  price : ℚ
  volume : ℚ
deriving DecidableEq, Repr

/-- The per-symbol mutable state of `MarketMonitor` (`__init__`):
`symbols`, `user_define_symbols`, `kline_buffers`, `volume_buffers`,
`key_levels`, `latest_data`, `last_alert_time`.  Alert timestamps are
modelled as rational seconds. -/
structure MonitorState where
  userDefineSymbols : List String
  symbols : List String
  klineBuffers : String → Option (List Candle)
  volumeBuffers : String → Option (List DepthSample)
  keyLevels : String → Option KeyLevels
  latestData : String → Option LatestData
  lastAlertTime : String → Option ℚ

/-- Point update of a symbol-keyed map. -/
def mapSet (m : String → Option β) (k : String) (v : Option β) :
    String → Option β :=
  fun s => if s = k then v else m s

/-- `MarketMonitor._handle_kline_data`: appends the parsed candle to
`kline_buffers[symbol]` (a `deque(maxlen=100)`) and overwrites
`latest_data[symbol]`.  If the symbol has no buffer, the `KeyError` is caught
and the state is unchanged.  Note that the source appends unconditionally:
there is no comparison with the last candle's `open_time`. -/
def handleKlineData (st : MonitorState) (sym : String) (k : Candle) :
    MonitorState :=
  match st.klineBuffers sym with
  | none => st
  | some buf =>
      { st with
        klineBuffers := mapSet st.klineBuffers sym (some (dequeAppend 100 buf k))
        latestData := mapSet st.latestData sym (some ⟨k.closeP, k.volume⟩) }

/-- `MarketMonitor._handle_depth_data`: appends the aggregated bid/ask sample
to `volume_buffers[symbol]` (a `deque(maxlen=20)`); a missing buffer raises
`KeyError`, which is caught. -/
def handleDepthData (st : MonitorState) (sym : String) (d : DepthSample) :
    MonitorState :=
  match st.volumeBuffers sym with
  | none => st
  | some buf =>
      { st with
        volumeBuffers := mapSet st.volumeBuffers sym (some (dequeAppend 20 buf d)) }

/-- Ingest a sequence of candle updates for one symbol, in arrival order. -/
def ingestKlines (st : MonitorState) (sym : String) (ks : List Candle) :
    MonitorState :=
  ks.foldl (fun s k => handleKlineData s sym k) st

/-- Ingest a sequence of depth updates for one symbol, in arrival order. -/
def ingestDepth (st : MonitorState) (sym : String) (ds : List DepthSample) :
    MonitorState :=
  ds.foldl (fun s d => handleDepthData s sym d) st

lemma dequeAppend_length_le {c : ℕ} (hc : 1 ≤ c) (buf : List α) (x : α)
    (_h : buf.length ≤ c) : (dequeAppend c buf x).length ≤ c := by
  simp only [dequeAppend, List.length_append, List.length_drop,
    List.length_singleton]
  omega

lemma foldl_dequeAppend_eq {c : ℕ} (hc : 1 ≤ c) :
    ∀ (l : List α) (buf : List α), buf.length ≤ c →
      l.foldl (dequeAppend c) buf = (buf ++ l).drop (buf.length + l.length - c) := by
  intro l
  induction l with
  | nil =>
      intro buf hb
      simp only [List.foldl_nil, List.length_nil, Nat.add_zero, List.append_nil]
      rw [Nat.sub_eq_zero_of_le hb, List.drop_zero]
  | cons x xs ih =>
      intro buf hb
      have hlen : (dequeAppend c buf x).length ≤ c := dequeAppend_length_le hc buf x hb
      have hlen2 : (dequeAppend c buf x).length = min (buf.length + 1) c := by
        simp only [dequeAppend, List.length_append, List.length_drop,
          List.length_singleton]
        omega
      have hlist : dequeAppend c buf x ++ xs
          = (buf ++ x :: xs).drop (buf.length + 1 - c) := by
        rw [List.drop_append_eq_append_drop]
        have h0 : buf.length + 1 - c - buf.length = 0 := by omega
        rw [h0, List.drop_zero]
        simp [dequeAppend]
      rw [List.foldl_cons, ih (dequeAppend c buf x) hlen, hlen2, hlist,
        List.drop_drop]
      congr 1
      simp only [List.length_cons]
      omega

lemma pushAll_eq_drop {c : ℕ} (hc : 1 ≤ c) (l : List α) :
    pushAll c l = l.drop (l.length - c) := by
  simpa [pushAll] using foldl_dequeAppend_eq hc l ([] : List α) (by simp)

lemma pushAll_length_le {c : ℕ} (hc : 1 ≤ c) (l : List α) :
    (pushAll c l).length ≤ c := by
  rw [pushAll_eq_drop hc, List.length_drop]
  omega

lemma handleKlineData_buffer {st : MonitorState} {sym : String}
    {buf : List Candle} (h : st.klineBuffers sym = some buf) (k : Candle) :
    (handleKlineData st sym k).klineBuffers sym
      = some (dequeAppend 100 buf k) := by
  simp [handleKlineData, h, mapSet]

lemma ingestKlines_buffer (sym : String) :
    ∀ (ks : List Candle) (st : MonitorState) (buf : List Candle),
      st.klineBuffers sym = some buf →
      (ingestKlines st sym ks).klineBuffers sym
        = some (ks.foldl (dequeAppend 100) buf) := by
  intro ks
  induction ks with
  | nil => intro st buf h; simpa [ingestKlines] using h
  | cons k ks ih =>
      intro st buf h
      have hstep : (handleKlineData st sym k).klineBuffers sym
          = some (dequeAppend 100 buf k) := by
        simp [handleKlineData, h, mapSet]
      have := ih (handleKlineData st sym k) (dequeAppend 100 buf k) hstep
      simpa [ingestKlines, List.foldl_cons] using this

lemma ingestDepth_buffer (sym : String) :
    ∀ (ds : List DepthSample) (st : MonitorState) (buf : List DepthSample),
      st.volumeBuffers sym = some buf →
      (ingestDepth st sym ds).volumeBuffers sym
        = some (ds.foldl (dequeAppend 20) buf) := by
  intro ds
  induction ds with
  | nil => intro st buf h; simpa [ingestDepth] using h
  | cons d ds ih =>
      intro st buf h
      have hstep : (handleDepthData st sym d).volumeBuffers sym
          = some (dequeAppend 20 buf d) := by
        simp [handleDepthData, h, mapSet]
      have := ih (handleDepthData st sym d) (dequeAppend 20 buf d) hstep
      simpa [ingestDepth, List.foldl_cons] using this

/-- Claim C1: for every per-symbol buffer and every sequence of pushed items,
the candle buffer (capacity 100) and the depth/volume buffer (capacity 20)
never hold more than their capacity, and after any sequence of pushes the
stored items are exactly the most recent capacity-many pushed items in
arrival order (oldest evicted first). -/
theorem kline_volume_buffers_bounded
    (st : MonitorState) (sym : String) (ks : List Candle) (ds : List DepthSample)
    (hk : st.klineBuffers sym = some [])
    (hd : st.volumeBuffers sym = some []) :
    (ingestKlines st sym ks).klineBuffers sym = some (ks.drop (ks.length - 100)) ∧
    (ingestDepth st sym ds).volumeBuffers sym = some (ds.drop (ds.length - 20)) ∧
    (ks.drop (ks.length - 100)).length ≤ 100 ∧
    (ds.drop (ds.length - 20)).length ≤ 20 := by
  have h1 := ingestKlines_buffer sym ks st [] hk
  have h2 := ingestDepth_buffer sym ds st [] hd
  have e1 : ks.foldl (dequeAppend 100) [] = ks.drop (ks.length - 100) :=
    pushAll_eq_drop (by norm_num) ks
  have e2 : ds.foldl (dequeAppend 20) [] = ds.drop (ds.length - 20) :=
    pushAll_eq_drop (by norm_num) ds
  refine ⟨?_, ?_, ?_, ?_⟩
  · rw [h1, e1]
  · rw [h2, e2]
  · simp only [List.length_drop]; omega
  · simp only [List.length_drop]; omega

/-- A fresh single-symbol state mirroring `MarketMonitor.__init__` with
`symbols = ['btcusdt']`. -/
def initialStateBtc : MonitorState where
  userDefineSymbols := ["btcusdt"]
  symbols := ["btcusdt"]
  klineBuffers := fun s => if s = "btcusdt" then some [] else none
  volumeBuffers := fun s => if s = "btcusdt" then some [] else none
  keyLevels := fun _ => none
  latestData := fun _ => none
  lastAlertTime := fun _ => none

theorem kline_volume_buffers_bounded_witness :
    (ingestKlines initialStateBtc "btcusdt"
        [⟨0, 1, 1, 1, 1, 1⟩, ⟨1, 2, 2, 2, 2, 2⟩]).klineBuffers "btcusdt"
      = some [⟨0, 1, 1, 1, 1, 1⟩, ⟨1, 2, 2, 2, 2, 2⟩] := by
  have h := kline_volume_buffers_bounded initialStateBtc "btcusdt"
    [⟨0, 1, 1, 1, 1, 1⟩, ⟨1, 2, 2, 2, 2, 2⟩] []
    (by simp [initialStateBtc]) (by simp [initialStateBtc])
  exact h.1

/-- Two candle updates sharing the same bucket key (`open_time = 0`) but with
different closing prices, as delivered back-to-back by the kline stream. -/
def candleU1 : Candle := ⟨0, 1, 1, 1, 1, 1⟩

/-- Second update of the same one-minute bucket (`open_time = 0`). -/
def candleU2 : Candle := ⟨0, 1, 2, 1, 2, 3⟩

/-- Claim C2, counterexample: `_handle_kline_data` appends unconditionally, so
ingesting two candle updates with the same `open_time` back-to-back grows the
series from length 1 to length 2 instead of leaving the length unchanged.
(The last element does equal the second update, but by appending, not by
in-place replacement.) -/
theorem kline_same_bucket_append_cex :
    candleU1.openTime = candleU2.openTime ∧
    (Option.map List.length
      ((handleKlineData initialStateBtc "btcusdt" candleU1).klineBuffers "btcusdt")
      = some 1) ∧
    (Option.map List.length
      ((handleKlineData (handleKlineData initialStateBtc "btcusdt" candleU1)
          "btcusdt" candleU2).klineBuffers "btcusdt")
      = some 2) := by
  refine ⟨rfl, ?_, ?_⟩ <;>
    simp [handleKlineData, initialStateBtc, mapSet, dequeAppend, candleU1, candleU2]

/-- Claim C2, amended: the candle ingestion path has no replace-if-same-bucket
step.  Ingesting two candle updates with the same `open_time` back-to-back
(below capacity) appends both: the series grows by two relative to the prior
buffer, and its last element equals the second update. -/
theorem kline_same_bucket_appends
    (st : MonitorState) (sym : String) (buf : List Candle) (u1 u2 : Candle)
    (hbuf : st.klineBuffers sym = some buf)
    (hcap : buf.length + 1 < 100)
    (_hkey : u1.openTime = u2.openTime) :
    (handleKlineData (handleKlineData st sym u1) sym u2).klineBuffers sym
      = some (buf ++ [u1, u2]) ∧
    (buf ++ [u1, u2]).length = buf.length + 2 ∧
    (buf ++ [u1, u2]).getLast? = some u2 := by
  have h1 : (handleKlineData st sym u1).klineBuffers sym
      = some (dequeAppend 100 buf u1) := handleKlineData_buffer hbuf u1
  have e1 : dequeAppend 100 buf u1 = buf ++ [u1] := by
    have h0 : buf.length + 1 - 100 = 0 := by omega
    rw [dequeAppend, h0, List.drop_zero]
  have h2 : (handleKlineData (handleKlineData st sym u1) sym u2).klineBuffers sym
      = some (dequeAppend 100 (dequeAppend 100 buf u1) u2) :=
    handleKlineData_buffer h1 u2
  have e2 : dequeAppend 100 (buf ++ [u1]) u2 = buf ++ [u1, u2] := by
    have h0 : (buf ++ [u1]).length + 1 - 100 = 0 := by
      simp only [List.length_append, List.length_singleton]; omega
    rw [dequeAppend, h0, List.drop_zero]
    simp
  refine ⟨?_, by simp, by simp⟩
  rw [h2, e1, e2]

theorem kline_same_bucket_appends_witness :
    (handleKlineData (handleKlineData initialStateBtc "btcusdt" candleU1)
        "btcusdt" candleU2).klineBuffers "btcusdt"
      = some [candleU1, candleU2] := by
  have h := kline_same_bucket_appends initialStateBtc "btcusdt" [] candleU1 candleU2
    (by simp [initialStateBtc]) (by norm_num) rfl
  simpa using h.1

/-- Signal categories produced by `MarketMonitor._generate_signal` /
`_determine_signal_type`: `'strong_buy' | 'buy' | 'sell' | 'strong_sell'`. -/
inductive SignalType where
  | strongBuy
  | buy
  | sell
  | strongSell
deriving DecidableEq, Repr

/-- Risk levels `'low' | 'medium' | 'high'`. -/
inductive RiskLevel where
  | low
  | medium
  | high
deriving DecidableEq, Repr

/-- A generated signal dictionary (`_generate_signal` return value):
`{'symbol', 'type', 'score', 'price', 'risk_level', 'reasons', ...}`.
The formatted Chinese reason strings are abstracted to plain tags. -/
structure GenSignal where
  symbol : String
  sigType : SignalType
  score : ℚ
  price : ℚ
  riskLevel : RiskLevel
  reasons : List String
deriving DecidableEq, Repr

/-- The alert gate of `MarketMonitor._output_signals` for one symbol: returns
whether the batch is output and the resulting `last_alert_time` entry.  The
source returns early when `signals` is empty, suppresses when the elapsed
time since `last_alert_time[symbol]` is under 300 seconds (one flat constant,
never inspecting the signal categories), and otherwise prints/sends the batch
and then sets `last_alert_time[symbol] = current_time`. -/
def outputSignalsStep (lastAlert : Option ℚ) (now : ℚ)
    (signals : List GenSignal) : Bool × Option ℚ :=
  if signals.isEmpty then (false, lastAlert)
  else
    match lastAlert with
    | some t => if now - t < 300 then (false, some t) else (true, some now)
    | none => (true, some now)

/-- A concrete `strong_buy` signal. -/
def strongBuySignal : GenSignal :=
  ⟨"btcusdt", SignalType.strongBuy, 85, 100, RiskLevel.low, []⟩

/-- Claim C3, counterexample: the cooldown threshold of `_output_signals`
does not depend on signal strength.  A first `strong_buy` batch is dispatched
at time 0; a second `strong_buy` batch 200 seconds later — more than the
3-minute (180 s) strong-signal cooldown the claim describes — is nevertheless
suppressed, because the source compares against the single 300-second
constant. -/
theorem cooldown_strength_independent_cex :
    (outputSignalsStep none 0 [strongBuySignal]).1 = true ∧
    (outputSignalsStep none 0 [strongBuySignal]).2 = some 0 ∧
    (180 : ℚ) < 200 ∧
    (outputSignalsStep (some 0) 200 [strongBuySignal]).1 = false := by
  refine ⟨?_, ?_, by norm_num, ?_⟩ <;> norm_num [outputSignalsStep]

/-- Claim C3, amended: `_output_signals` suppresses a non-empty signal batch
for a symbol exactly when the elapsed time since that symbol's last alert is
below a flat 300-second (5-minute) cooldown, independent of signal strength;
with no prior alert the batch is dispatched; `last_alert_time` is updated to
the current time exactly when a batch is actually output; and two batches
separated by at least 300 seconds are both dispatched. -/
theorem cooldown_flat_five_minutes
    (t now : ℚ) (signals : List GenSignal) (hne : signals ≠ []) :
    (outputSignalsStep (some t) now signals
      = if now - t < 300 then (false, some t) else (true, some now)) ∧
    outputSignalsStep none now signals = (true, some now) ∧
    ((outputSignalsStep (some t) now signals).1 = false →
      (outputSignalsStep (some t) now signals).2 = some t) ∧
    (300 ≤ now - t → (outputSignalsStep (some t) now signals).1 = true) := by
  have hne2 : signals.isEmpty = false := by
    cases signals with
    | nil => exact absurd rfl hne
    | cons a l => rfl
  refine ⟨by simp [outputSignalsStep, hne2], by simp [outputSignalsStep, hne2],
    ?_, ?_⟩
  · intro hf
    by_cases hlt : now - t < 300
    · simp [outputSignalsStep, hne2, hlt]
    · simp [outputSignalsStep, hne2, hlt] at hf
  · intro hge
    have hlt : ¬ now - t < 300 := not_lt.mpr hge
    simp [outputSignalsStep, hne2, hlt]

theorem cooldown_flat_five_minutes_witness :
    outputSignalsStep (some 0) 301 [strongBuySignal] = (true, some 301) := by
  have h := cooldown_flat_five_minutes 0 301 [strongBuySignal] (by simp)
  rw [h.1]
  norm_num

/-- Events observed by the WebSocket ingestion machinery of `MarketMonitor`:
socket errors (`on_error`), remote closes (`on_close`), incoming frames
(`on_message`), and the cancellation request (`stop`). -/
inductive WsEvent where
  | wsError
  | wsClose
  | message (frame : String)
  | stopReq
deriving DecidableEq, Repr

/-- Externally visible actions of the ingestion machinery: scheduling a
reconnect after a delay in seconds (`_reconnect`: `time.sleep(5)` then a new
`_start_websocket` thread), enqueueing a frame (`on_message` →
`message_queue.put`), and closing the socket (`stop` → `ws.close()`). -/
inductive WsAction where
  | scheduleReconnect (delaySeconds : ℕ)
  | enqueue (frame : String)
  | closeWs
deriving DecidableEq, Repr

/-- The shared `threading.Event` flag `running` is the only state the
reconnect logic consults. -/
structure IngestState where
  running : Bool
deriving DecidableEq, Repr

/-- `MarketMonitor._reconnect`: if `running.is_set()`, wait a fixed 5 seconds
and start a new WebSocket thread; otherwise do nothing.  There is no retry
counter, so the delay never grows. -/
def reconnectStep (running : Bool) : List WsAction :=
  if running then [WsAction.scheduleReconnect 5] else []

/-- One step of the ingestion event loop: `on_error` and `on_close` call
`_reconnect`; `on_message` enqueues the frame only while `running` is set;
`stop` clears `running` and closes the socket. -/
def ingestStep (st : IngestState) : WsEvent → IngestState × List WsAction
  | WsEvent.wsError => (st, reconnectStep st.running)
  | WsEvent.wsClose => (st, reconnectStep st.running)
  | WsEvent.message f =>
      (st, if st.running then [WsAction.enqueue f] else [])
  | WsEvent.stopReq => (⟨false⟩, [WsAction.closeWs])

/-- Run the ingestion machinery over an event trace, collecting all emitted
actions in order. -/
def ingestRun (st : IngestState) : List WsEvent → IngestState × List WsAction
  | [] => (st, [])
  | e :: es =>
      let p := ingestStep st e
      let q := ingestRun p.1 es
      (q.1, p.2 ++ q.2)

lemma ingestStep_not_running {st : IngestState} (h : st.running = false) :
    ∀ e : WsEvent, (ingestStep st e).1.running = false ∧
      ∀ d, WsAction.scheduleReconnect d ∉ (ingestStep st e).2 := by
  intro e
  cases e <;> simp [ingestStep, reconnectStep, h]

lemma ingestRun_not_running :
    ∀ (es : List WsEvent) (st : IngestState), st.running = false →
      (ingestRun st es).1.running = false ∧
      ∀ d, WsAction.scheduleReconnect d ∉ (ingestRun st es).2 := by
  intro es
  induction es with
  | nil => intro st h; simpa [ingestRun] using h
  | cons e es ih =>
      intro st h
      have hstep := ingestStep_not_running h e
      have htail := ih (ingestStep st e).1 hstep.1
      refine ⟨by simpa [ingestRun] using htail.1, ?_⟩
      intro d
      simp only [ingestRun, List.mem_append]
      rintro (hmem | hmem)
      · exact hstep.2 d hmem
      · exact htail.2 d hmem

lemma ingestRun_stop_clears :
    ∀ (pre : List WsEvent) (st : IngestState),
      (ingestRun st (pre ++ [WsEvent.stopReq])).1.running = false := by
  intro pre
  induction pre with
  | nil => intro st; simp [ingestRun, ingestStep]
  | cons e es ih => intro st; simpa [ingestRun] using ih (ingestStep st e).1

/-- Claim C9: while the monitor is running, every WebSocket error or remote
close schedules exactly one reconnect after the fixed 5-second delay (no
backoff state exists); `stop` clears the running flag; and once the running
flag is cleared — in particular after a `stop` event anywhere in the trace —
no reconnect is ever scheduled again, whatever events follow. -/
theorem reconnect_fixed_delay_and_stop
    (st : IngestState) (h : st.running = true) :
    ingestStep st WsEvent.wsError = (st, [WsAction.scheduleReconnect 5]) ∧
    ingestStep st WsEvent.wsClose = (st, [WsAction.scheduleReconnect 5]) ∧
    (ingestStep st WsEvent.stopReq).1.running = false ∧
    (∀ (st2 : IngestState) (es : List WsEvent), st2.running = false →
      ∀ d, WsAction.scheduleReconnect d ∉ (ingestRun st2 es).2) ∧
    (∀ (pre post : List WsEvent), ∀ d,
      WsAction.scheduleReconnect d ∉
        (ingestRun (ingestRun st (pre ++ [WsEvent.stopReq])).1 post).2) := by
  refine ⟨by simp [ingestStep, reconnectStep, h],
    by simp [ingestStep, reconnectStep, h], by simp [ingestStep], ?_, ?_⟩
  · intro st2 es h2 d
    exact (ingestRun_not_running es st2 h2).2 d
  · intro pre post d
    exact (ingestRun_not_running post _ (ingestRun_stop_clears pre st)).2 d

theorem reconnect_fixed_delay_and_stop_witness :
    ingestStep ⟨true⟩ WsEvent.wsError
      = (⟨true⟩, [WsAction.scheduleReconnect 5]) ∧
    (ingestRun (ingestRun ⟨true⟩ [WsEvent.wsError, WsEvent.stopReq]).1
        [WsEvent.wsError, WsEvent.wsClose]).2 = [] := by
  have h := reconnect_fixed_delay_and_stop ⟨true⟩ rfl
  refine ⟨h.1, ?_⟩
  have h2 := h.2.2.2.2 [WsEvent.wsError] [WsEvent.wsError, WsEvent.wsClose]
  simp only [List.singleton_append] at h2
  simp [ingestRun, ingestStep, reconnectStep] at h2 ⊢

/-- The body of `MarketMonitor._analyze_symbol` for one symbol: fetching
multi-timeframe history, computing indicators and scoring may raise (modelled
as `Except.error`) or produce a scored result (modelled as the final signal
score). -/
def AnalysisOracle : Type := String → Except String ℚ

/-- `MarketMonitor._analyze_symbol`: its whole body is wrapped in
`try/except`, so a raised exception is caught and logged and the call returns
normally with no result. -/
def analyzeSymbolRun (oracle : AnalysisOracle) (s : String) : Option ℚ :=
  match oracle s with
  | Except.ok r => some r
  | Except.error _ => none

/-- One tick of `MarketMonitor._analysis_loop`, written in the exception
monad: the `for symbol in self.symbols` loop analyzes each symbol with
`latest_data` present; an uncaught exception in an iteration would abort the
remainder of the fold, but every iteration's body is the caught
`analyzeSymbolRun`. -/
def analysisTickRun (oracle : AnalysisOracle) (hasData : String → Bool) :
    List String → Except String (List (String × Option ℚ))
  | [] => Except.ok []
  | s :: ss =>
      if hasData s then
        (Except.ok (analyzeSymbolRun oracle s)).bind fun v =>
          (analysisTickRun oracle hasData ss).bind fun rest =>
            Except.ok ((s, v) :: rest)
      else analysisTickRun oracle hasData ss

/-- The per-tick results: one entry per symbol with market data present. -/
def tickList (oracle : AnalysisOracle) (hasData : String → Bool)
    (symbols : List String) : List (String × Option ℚ) :=
  (symbols.filter hasData).map fun s => (s, analyzeSymbolRun oracle s)

/-- The outer `while self.running.is_set()` loop of `_analysis_loop` across
successive ticks (one oracle per tick); its own `try/except` would swallow a
tick-level exception. -/
def analysisLoopRun (hasData : String → Bool) (symbols : List String) :
    List AnalysisOracle → List (List (String × Option ℚ))
  | [] => []
  | o :: os =>
      (match analysisTickRun o hasData symbols with
       | Except.ok res => res
       | Except.error _ => []) :: analysisLoopRun hasData symbols os

lemma analysisTickRun_eq (oracle : AnalysisOracle) (hasData : String → Bool) :
    ∀ symbols : List String,
      analysisTickRun oracle hasData symbols
        = Except.ok (tickList oracle hasData symbols) := by
  intro symbols
  induction symbols with
  | nil => simp [analysisTickRun, tickList]
  | cons s ss ih =>
      by_cases h : hasData s
      · simp [analysisTickRun, h, ih, tickList, Except.bind]
      · simp [analysisTickRun, h, ih, tickList]

/-- Claim C5: if the analysis body raises for symbol `k`, the tick still
completes without propagating the exception, every other symbol with data
still receives its own scored result in that same tick, the failed symbol
contributes a logged empty result, and subsequent ticks are computed exactly
as if the failure had not happened. -/
theorem analysis_tick_failure_isolation
    (oracle : AnalysisOracle) (hasData : String → Bool)
    (symbols : List String) (k e : String)
    (hk : oracle k = Except.error e) :
    (∃ res, analysisTickRun oracle hasData symbols = Except.ok res ∧
      (∀ s ∈ symbols, hasData s = true → ∀ r, oracle s = Except.ok r →
        (s, some r) ∈ res) ∧
      (k ∈ symbols → hasData k = true → (k, none) ∈ res)) ∧
    (∀ os, analysisLoopRun hasData symbols (oracle :: os)
      = tickList oracle hasData symbols :: analysisLoopRun hasData symbols os) := by
  refine ⟨⟨tickList oracle hasData symbols, analysisTickRun_eq oracle hasData symbols,
    ?_, ?_⟩, ?_⟩
  · intro s hs hd r hr
    have hmem : s ∈ symbols.filter hasData := List.mem_filter.mpr ⟨hs, hd⟩
    have : (s, analyzeSymbolRun oracle s) ∈ tickList oracle hasData symbols :=
      List.mem_map_of_mem _ hmem
    simpa [analyzeSymbolRun, hr] using this
  · intro hs hd
    have hmem : k ∈ symbols.filter hasData := List.mem_filter.mpr ⟨hs, hd⟩
    have : (k, analyzeSymbolRun oracle k) ∈ tickList oracle hasData symbols :=
      List.mem_map_of_mem _ hmem
    simpa [analyzeSymbolRun, hk] using this
  · intro os
    simp [analysisLoopRun, analysisTickRun_eq]

/-- A concrete tick oracle in which symbol `badusdt` raises. -/
def oracleW : AnalysisOracle :=
  fun s => if s = "badusdt" then Except.error "boom" else Except.ok 1

theorem analysis_tick_failure_isolation_witness :
    ∃ res, analysisTickRun oracleW (fun _ => true)
        ["aaausdt", "badusdt", "bbbusdt"] = Except.ok res ∧
      ("aaausdt", some 1) ∈ res ∧ ("badusdt", (none : Option ℚ)) ∈ res := by
  obtain ⟨⟨res, h1, h2, h3⟩, _⟩ :=
    analysis_tick_failure_isolation oracleW (fun _ => true)
      ["aaausdt", "badusdt", "bbbusdt"] "badusdt" "boom" (by simp [oracleW])
  refine ⟨res, h1, ?_, h3 (by simp) rfl⟩
  exact h2 "aaausdt" (by simp) rfl 1 (by simp [oracleW])

/-- One iteration of the `for symbol in self.symbols` loop of
`MarketMonitor._initialize_data`: store the freshly computed key levels; if a
zero appears among them (`0 in chain.from_iterable(...)`, a degenerate
bootstrap), pop the symbol from every per-symbol dict and mark it for removal
from the symbol list; otherwise backfill the candle buffer from fetched
history (a missing buffer raises `KeyError`, which the surrounding `except`
catches after `key_levels` was already set).  `levels` and `klines` stand for
the network-backed `CryptoAnalyzer.analyze_key_level` and
`DataFetcher.get_kline_data` collaborators. -/
def initSymbolStep (levels : String → KeyLevels) (klines : String → List Candle)
    (acc : MonitorState × List String) (sym : String) :
    MonitorState × List String :=
  let st := acc.1
  let kl := levels sym
  let st1 := { st with keyLevels := mapSet st.keyLevels sym (some kl) }
  if (0 : ℚ) ∈ kl.resistances ++ kl.supports then
    ({ st1 with
        klineBuffers := mapSet st1.klineBuffers sym none
        volumeBuffers := mapSet st1.volumeBuffers sym none
        keyLevels := mapSet st1.keyLevels sym none
        latestData := mapSet st1.latestData sym none
        lastAlertTime := mapSet st1.lastAlertTime sym none },
      acc.2 ++ [sym])
  else
    (match st1.klineBuffers sym with
     | none => st1
     | some buf =>
        { st1 with
          klineBuffers := mapSet st1.klineBuffers sym
            (some ((klines sym).foldl (dequeAppend 100) buf)) },
     acc.2)

/-- The key-level bootstrap phase of `MarketMonitor._initialize_data` (run
after `update_monitoring_list`): process every monitored symbol, then drop
the symbols collected in `symbols_to_remove` from `self.symbols`. -/
def initializeKeyLevels (levels : String → KeyLevels)
    (klines : String → List Candle) (st : MonitorState) : MonitorState :=
  let p := st.symbols.foldl (initSymbolStep levels klines) (st, [])
  { p.1 with symbols := p.1.symbols.filter fun s => decide (s ∉ p.2) }

/-- The fully-rolled-back condition for a symbol. -/
def rolledBack (acc : MonitorState × List String) (sym : String) : Prop :=
  acc.1.klineBuffers sym = none ∧ acc.1.volumeBuffers sym = none ∧
  acc.1.keyLevels sym = none ∧ acc.1.latestData sym = none ∧
  acc.1.lastAlertTime sym = none ∧ sym ∈ acc.2

lemma initSymbolStep_rollsBack (levels : String → KeyLevels)
    (klines : String → List Candle) (acc : MonitorState × List String)
    (sym : String)
    (hdeg : (0 : ℚ) ∈ (levels sym).resistances ++ (levels sym).supports) :
    rolledBack (initSymbolStep levels klines acc sym) sym := by
  simp [initSymbolStep, hdeg, rolledBack, mapSet]

lemma initSymbolStep_preserves (levels : String → KeyLevels)
    (klines : String → List Candle) (acc : MonitorState × List String)
    (sym s2 : String)
    (hdeg : (0 : ℚ) ∈ (levels sym).resistances ++ (levels sym).supports)
    (h : rolledBack acc sym) :
    rolledBack (initSymbolStep levels klines acc s2) sym := by
  by_cases heq : s2 = sym
  · subst heq
    exact initSymbolStep_rollsBack levels klines acc s2 hdeg
  · have hne : sym ≠ s2 := fun hx => heq hx.symm
    obtain ⟨h1, h2, h3, h4, h5, h6⟩ := h
    by_cases hd2 : (0 : ℚ) ∈ (levels s2).resistances ++ (levels s2).supports
    · refine ⟨?_, ?_, ?_, ?_, ?_, ?_⟩ <;>
        simp [initSymbolStep, hd2, mapSet, hne, h1, h2, h3, h4, h5, h6]
    · cases hbuf : acc.1.klineBuffers s2 with
      | none =>
          refine ⟨?_, ?_, ?_, ?_, ?_, ?_⟩ <;>
            simp [initSymbolStep, hd2, hbuf, mapSet, hne, h1, h2, h3, h4, h5, h6]
      | some buf =>
          refine ⟨?_, ?_, ?_, ?_, ?_, ?_⟩ <;>
            simp [initSymbolStep, hd2, hbuf, mapSet, hne, h1, h2, h3, h4, h5, h6]

lemma foldl_initSymbolStep_preserves (levels : String → KeyLevels)
    (klines : String → List Candle) (sym : String)
    (hdeg : (0 : ℚ) ∈ (levels sym).resistances ++ (levels sym).supports) :
    ∀ (l : List String) (acc : MonitorState × List String),
      rolledBack acc sym →
      rolledBack (l.foldl (initSymbolStep levels klines) acc) sym := by
  intro l
  induction l with
  | nil => intro acc h; exact h
  | cons s2 ss ih =>
      intro acc h
      exact ih _ (initSymbolStep_preserves levels klines acc sym s2 hdeg h)

lemma foldl_initSymbolStep_rollsBack (levels : String → KeyLevels)
    (klines : String → List Candle) (sym : String)
    (hdeg : (0 : ℚ) ∈ (levels sym).resistances ++ (levels sym).supports) :
    ∀ (l : List String) (acc : MonitorState × List String), sym ∈ l →
      rolledBack (l.foldl (initSymbolStep levels klines) acc) sym := by
  intro l
  induction l with
  | nil => intro acc h; cases h
  | cons s2 ss ih =>
      intro acc hmem
      rcases List.mem_cons.mp hmem with heq | htail
      · subst heq
        exact foldl_initSymbolStep_preserves levels klines sym hdeg ss _
          (initSymbolStep_rollsBack levels klines acc sym hdeg)
      · exact ih _ htail

/-- Claim C4: a symbol whose initial key-level computation yields a
degenerate result (a zero among the computed support/resistance levels) is
rolled back out of the registry entirely by `_initialize_data`: afterwards it
has no candle buffer, no volume buffer, no key-levels entry, no latest-data
entry and no last-alert entry, and it is absent from the monitored symbol
list. -/
theorem degenerate_levels_rollback
    (levels : String → KeyLevels) (klines : String → List Candle)
    (st : MonitorState) (sym : String)
    (hmem : sym ∈ st.symbols)
    (hdeg : (0 : ℚ) ∈ (levels sym).resistances ++ (levels sym).supports) :
    (initializeKeyLevels levels klines st).klineBuffers sym = none ∧
    (initializeKeyLevels levels klines st).volumeBuffers sym = none ∧
    (initializeKeyLevels levels klines st).keyLevels sym = none ∧
    (initializeKeyLevels levels klines st).latestData sym = none ∧
    (initializeKeyLevels levels klines st).lastAlertTime sym = none ∧
    sym ∉ (initializeKeyLevels levels klines st).symbols := by
  have h := foldl_initSymbolStep_rollsBack levels klines sym hdeg st.symbols
    (st, []) hmem
  obtain ⟨h1, h2, h3, h4, h5, h6⟩ := h
  refine ⟨h1, h2, h3, h4, h5, ?_⟩
  intro hin
  have := List.of_mem_filter hin
  simp only [decide_eq_true_eq] at this
  exact this h6

/-- Degenerate key levels: a zero among the supports. -/
def levelsW : String → KeyLevels := fun _ => ⟨[1, 2], [0]⟩

theorem degenerate_levels_rollback_witness :
    (initializeKeyLevels levelsW (fun _ => []) initialStateBtc).keyLevels
        "btcusdt" = none ∧
    "btcusdt" ∉ (initializeKeyLevels levelsW (fun _ => [])
        initialStateBtc).symbols := by
  have h := degenerate_levels_rollback levelsW (fun _ => []) initialStateBtc
    "btcusdt" (by simp [initialStateBtc]) (by simp [levelsW])
  exact ⟨h.2.2.1, h.2.2.2.2.2⟩

/-- The result dictionary of `MarketMonitor._evaluate_price_position`:
`score`, `details.relative_position`, `details.volatility`, `risk_level`. -/
structure PriceEval where
  score : ℚ
  relativePosition : ℚ
  volatility : ℚ
  riskLevel : RiskLevel
deriving DecidableEq, Repr

/-- The result dictionary of `MarketMonitor._evaluate_volume_quality`:
`score`, `details.volume_ratio` (field `volumeQ`), `details.pressure_ratio`
(field `pressureQ`), `risk_level`. -/
structure VolumeEval where
  score : ℚ
  volumeQ : ℚ
  pressureQ : ℚ
  riskLevel : RiskLevel
deriving DecidableEq, Repr

/-- The score adjustment of `MarketMonitor._generate_signal` (step 3):
`adjusted_score = final_score`, then `*= 0.8` when the relative price
position exceeds 0.8 (and additionally `*= 0.9` when volatility exceeds
0.05), then `*= 0.85` when volume blows up (`> 5`) with net selling pressure
(`< 1`), or `*= 0.9` when volume blows up with extreme buying pressure
(`> 3`).  Arguments: final score `f`, relative price position `pp`,
volatility `pv`, volume multiple `vq`, buy/sell pressure multiple `pq`. -/
def adjustedScore (f pp pv vq pq : ℚ) : ℚ :=
  let s1 :=
    if (0.8 : ℚ) < pp then
      (let t := f * 0.8
       if (0.05 : ℚ) < pv then t * 0.9 else t)
    else f
  if (5 : ℚ) < vq then
    (if pq < 1 then s1 * 0.85 else if (3 : ℚ) < pq then s1 * 0.9 else s1)
  else s1

/-- The category decision of `MarketMonitor._generate_signal` (step 4):
`strong_buy` needs score ≥ 80 with corroborating volume (≥ 70) and price
(≥ 60) scores, `buy` needs ≥ 65, `strong_sell` needs ≤ 20 with volume score
≤ 30, `sell` needs ≤ 35; otherwise the function returns `None`. -/
def signalTypeOf (adj volScore priceScore : ℚ) : Option SignalType :=
  if 80 ≤ adj ∧ 70 ≤ volScore ∧ 60 ≤ priceScore then some SignalType.strongBuy
  else if 65 ≤ adj then some SignalType.buy
  else if adj ≤ 20 ∧ volScore ≤ 30 then some SignalType.strongSell
  else if adj ≤ 35 then some SignalType.sell
  else none

/-- `MarketMonitor._assess_comprehensive_risk`: any high-risk condition wins,
then any medium-risk condition, else low. -/
def assessComprehensiveRisk (pe : PriceEval) (ve : VolumeEval) : RiskLevel :=
  if (0.85 : ℚ) < pe.relativePosition ∨ (0.08 : ℚ) < pe.volatility ∨
      (10 : ℚ) < ve.volumeQ ∨
      (pe.riskLevel = RiskLevel.high ∧ ve.riskLevel = RiskLevel.high) then
    RiskLevel.high
  else if ((0.7 : ℚ) < pe.relativePosition ∧ pe.relativePosition < 0.85) ∨
      ((0.05 : ℚ) < pe.volatility ∧ pe.volatility < 0.08) ∨
      ((5 : ℚ) < ve.volumeQ ∧ ve.volumeQ < 10) ∨
      pe.riskLevel = RiskLevel.medium ∨ ve.riskLevel = RiskLevel.medium then
    RiskLevel.medium
  else RiskLevel.low

/-- The reason list of `_generate_signal` (step 6); the formatted Chinese
strings are abstracted to fixed tags. -/
def signalReasons (pe : PriceEval) (ve : VolumeEval) : List String :=
  (if (2 : ℚ) < ve.volumeQ then ["volume surge"] else []) ++
  (if (1.2 : ℚ) < ve.pressureQ ∨ ve.pressureQ < 0.8 then
    ["pressure imbalance"] else []) ++
  (if (0.7 : ℚ) < pe.relativePosition then ["price near range high"]
   else if pe.relativePosition < 0.3 then ["price near range low"] else []) ++
  (if (0.05 : ℚ) < pe.volatility then ["volatility elevated"] else [])

/-- The adjusted score of `_generate_signal` in terms of the two evaluation
dictionaries it receives. -/
def monitorAdjScore (f : ℚ) (pe : PriceEval) (ve : VolumeEval) : ℚ :=
  adjustedScore f pe.relativePosition pe.volatility ve.volumeQ ve.pressureQ

/-- `MarketMonitor._generate_signal`: adjust the combined final score,
categorize it, and build the signal dictionary; in the neutral band the
function returns `None` and `_generate_combined_signals` appends nothing, so
nothing reaches `_output_signals`. -/
def generateSignal (f cp : ℚ) (pe : PriceEval) (ve : VolumeEval)
    (sym : String) : Option GenSignal :=
  match signalTypeOf (monitorAdjScore f pe ve) ve.score pe.score with
  | none => none
  | some t =>
      some ⟨sym, t, monitorAdjScore f pe ve, cp,
        assessComprehensiveRisk pe ve, signalReasons pe ve⟩

/-- `MarketMonitor._determine_signal_type`: the plain threshold ladder
75 / 65 / 25 / 35. -/
def determineSignalType (score : ℚ) : Option SignalType :=
  if 75 ≤ score then some SignalType.strongBuy
  else if 65 ≤ score then some SignalType.buy
  else if score ≤ 25 then some SignalType.strongSell
  else if score ≤ 35 then some SignalType.sell
  else none

lemma adjustedScore_cases (f pp pv vq pq : ℚ) :
    ∃ c1 c2 c3 : ℚ, (c1 = 1 ∨ c1 = 0.8) ∧ (c2 = 1 ∨ c2 = 0.9) ∧
      (c3 = 1 ∨ c3 = 0.85 ∨ c3 = 0.9) ∧
      adjustedScore f pp pv vq pq = f * c1 * c2 * c3 := by
  unfold adjustedScore
  split_ifs
  · exact ⟨0.8, 0.9, 0.85, Or.inr rfl, Or.inr rfl, Or.inr (Or.inl rfl), by ring⟩
  · exact ⟨0.8, 0.9, 0.9, Or.inr rfl, Or.inr rfl, Or.inr (Or.inr rfl), by ring⟩
  · exact ⟨0.8, 0.9, 1, Or.inr rfl, Or.inr rfl, Or.inl rfl, by ring⟩
  · exact ⟨0.8, 0.9, 1, Or.inr rfl, Or.inr rfl, Or.inl rfl, by ring⟩
  · exact ⟨0.8, 1, 0.85, Or.inr rfl, Or.inl rfl, Or.inr (Or.inl rfl), by ring⟩
  · exact ⟨0.8, 1, 0.9, Or.inr rfl, Or.inl rfl, Or.inr (Or.inr rfl), by ring⟩
  · exact ⟨0.8, 1, 1, Or.inr rfl, Or.inl rfl, Or.inl rfl, by ring⟩
  · exact ⟨0.8, 1, 1, Or.inr rfl, Or.inl rfl, Or.inl rfl, by ring⟩
  · exact ⟨1, 1, 0.85, Or.inl rfl, Or.inl rfl, Or.inr (Or.inl rfl), by ring⟩
  · exact ⟨1, 1, 0.9, Or.inl rfl, Or.inl rfl, Or.inr (Or.inr rfl), by ring⟩
  · exact ⟨1, 1, 1, Or.inl rfl, Or.inl rfl, Or.inl rfl, by ring⟩
  · exact ⟨1, 1, 1, Or.inl rfl, Or.inl rfl, Or.inl rfl, by ring⟩

lemma adjustedScore_nonneg {f : ℚ} (pp pv vq pq : ℚ) (hf : 0 ≤ f) :
    0 ≤ adjustedScore f pp pv vq pq := by
  obtain ⟨c1, c2, c3, h1, h2, h3, he⟩ := adjustedScore_cases f pp pv vq pq
  rw [he]
  rcases h1 with h1 | h1 <;> rcases h2 with h2 | h2 <;>
    rcases h3 with h3 | h3 | h3 <;> subst h1 <;> subst h2 <;> subst h3 <;>
    nlinarith

lemma adjustedScore_le_self {f : ℚ} (pp pv vq pq : ℚ) (hf : 0 ≤ f) :
    adjustedScore f pp pv vq pq ≤ f := by
  obtain ⟨c1, c2, c3, h1, h2, h3, he⟩ := adjustedScore_cases f pp pv vq pq
  rw [he]
  rcases h1 with h1 | h1 <;> rcases h2 with h2 | h2 <;>
    rcases h3 with h3 | h3 | h3 <;> subst h1 <;> subst h2 <;> subst h3 <;>
    nlinarith

lemma signalTypeOf_strongBuy {adj v p : ℚ}
    (h : signalTypeOf adj v p = some SignalType.strongBuy) : 80 ≤ adj := by
  unfold signalTypeOf at h
  split_ifs at h with h1 h2 h3 h4 <;> simp_all

lemma generateSignal_parts {f cp : ℚ} {pe : PriceEval} {ve : VolumeEval}
    {sym : String} {sig : GenSignal}
    (h : generateSignal f cp pe ve sym = some sig) :
    ∃ t, signalTypeOf (monitorAdjScore f pe ve) ve.score pe.score = some t ∧
      sig.sigType = t ∧ sig.score = monitorAdjScore f pe ve := by
  unfold generateSignal at h
  cases hm : signalTypeOf (monitorAdjScore f pe ve) ve.score pe.score with
  | none => rw [hm] at h; cases h
  | some t =>
      rw [hm] at h
      cases h
      exact ⟨t, rfl, rfl, rfl⟩

lemma signalTypeOf_neutral {adj v p : ℚ} (h35 : 35 < adj) (h65 : adj < 65) :
    signalTypeOf adj v p = none := by
  unfold signalTypeOf
  split_ifs with h1 h2 h3 h4
  · linarith [h1.1]
  · linarith
  · linarith [h3.1]
  · linarith
  · rfl

lemma signalTypeOf_buy {adj v p : ℚ} (h65 : 65 ≤ adj)
    (hn : ¬(80 ≤ adj ∧ 70 ≤ v ∧ 60 ≤ p)) :
    signalTypeOf adj v p = some SignalType.buy := by
  unfold signalTypeOf
  rw [if_neg hn, if_pos h65]

lemma signalTypeOf_strongSell {adj v p : ℚ} (h20 : adj ≤ 20) (h30 : v ≤ 30) :
    signalTypeOf adj v p = some SignalType.strongSell := by
  unfold signalTypeOf
  rw [if_neg (by rintro ⟨h80, -⟩; linarith), if_neg (by intro h; linarith),
    if_pos ⟨h20, h30⟩]

lemma signalTypeOf_sell {adj v p : ℚ} (h35 : adj ≤ 35)
    (hn : ¬(adj ≤ 20 ∧ v ≤ 30)) :
    signalTypeOf adj v p = some SignalType.sell := by
  unfold signalTypeOf
  rw [if_neg (by rintro ⟨h80, -⟩; linarith), if_neg (by intro h; linarith),
    if_neg hn, if_pos h35]

/-- Claim C6: categorization is total over the computed scores: inside the
neutral band (35, 65) both `_generate_signal` and `_determine_signal_type`
emit nothing and an empty batch leaves the dispatcher untouched; every
emitted signal carries one of the four categories and the adjusted score,
which stays in [0, 100] whenever the combined final score does; and the
threshold ladder is: adjusted ≥ 80 with volume score ≥ 70 and price score
≥ 60 gives `strong_buy`, adjusted ≥ 65 otherwise gives `buy`, adjusted ≤ 20
with volume score ≤ 30 gives `strong_sell`, adjusted ≤ 35 otherwise gives
`sell`. -/
theorem signal_categorization_total
    (f cp : ℚ) (pe : PriceEval) (ve : VolumeEval) (sym : String) :
    (35 < monitorAdjScore f pe ve → monitorAdjScore f pe ve < 65 →
      generateSignal f cp pe ve sym = none) ∧
    (∀ s : ℚ, 35 < s → s < 65 → determineSignalType s = none) ∧
    (∀ (la : Option ℚ) (now : ℚ), outputSignalsStep la now [] = (false, la)) ∧
    (∀ sig : GenSignal, generateSignal f cp pe ve sym = some sig →
      (sig.sigType = SignalType.strongBuy ∨ sig.sigType = SignalType.buy ∨
        sig.sigType = SignalType.sell ∨ sig.sigType = SignalType.strongSell) ∧
      sig.score = monitorAdjScore f pe ve ∧
      (0 ≤ f → f ≤ 100 → 0 ≤ sig.score ∧ sig.score ≤ 100)) ∧
    (80 ≤ monitorAdjScore f pe ve → 70 ≤ ve.score → 60 ≤ pe.score →
      Option.map GenSignal.sigType (generateSignal f cp pe ve sym)
        = some SignalType.strongBuy) ∧
    (65 ≤ monitorAdjScore f pe ve →
      ¬(80 ≤ monitorAdjScore f pe ve ∧ 70 ≤ ve.score ∧ 60 ≤ pe.score) →
      Option.map GenSignal.sigType (generateSignal f cp pe ve sym)
        = some SignalType.buy) ∧
    (monitorAdjScore f pe ve ≤ 20 → ve.score ≤ 30 →
      Option.map GenSignal.sigType (generateSignal f cp pe ve sym)
        = some SignalType.strongSell) ∧
    (monitorAdjScore f pe ve ≤ 35 →
      ¬(monitorAdjScore f pe ve ≤ 20 ∧ ve.score ≤ 30) →
      Option.map GenSignal.sigType (generateSignal f cp pe ve sym)
        = some SignalType.sell) := by
  refine ⟨?_, ?_, ?_, ?_, ?_, ?_, ?_, ?_⟩
  · intro h35 h65
    simp [generateSignal, signalTypeOf_neutral h35 h65]
  · intro s h35 h65
    unfold determineSignalType
    split_ifs with h1 h2 h3 h4
    · linarith
    · linarith
    · linarith
    · linarith
    · rfl
  · intro la now
    simp [outputSignalsStep]
  · intro sig h
    obtain ⟨t, hst, hty, hsc⟩ := generateSignal_parts h
    refine ⟨?_, hsc, ?_⟩
    · cases t <;> simp [hty]
    · intro h0 h100
      rw [hsc]
      unfold monitorAdjScore
      exact ⟨adjustedScore_nonneg _ _ _ _ h0,
        le_trans (adjustedScore_le_self _ _ _ _ h0) h100⟩
  · intro h80 h70 h60
    have hst : signalTypeOf (monitorAdjScore f pe ve) ve.score pe.score
        = some SignalType.strongBuy := by
      unfold signalTypeOf
      rw [if_pos ⟨h80, h70, h60⟩]
    simp [generateSignal, hst]
  · intro h65 hn
    simp [generateSignal, signalTypeOf_buy h65 hn]
  · intro h20 h30
    simp [generateSignal, signalTypeOf_strongSell h20 h30]
  · intro h35 hn
    simp [generateSignal, signalTypeOf_sell h35 hn]

/-- A benign price evaluation: mid-range position, low volatility. -/
def peW : PriceEval := ⟨70, 0.5, 0.01, RiskLevel.low⟩

/-- A benign volume evaluation: strong score, no anomaly. -/
def veW : VolumeEval := ⟨80, 1, 1, RiskLevel.low⟩

theorem signal_categorization_total_witness :
    Option.map GenSignal.sigType (generateSignal 90 100 peW veW "btcusdt")
      = some SignalType.strongBuy ∧
    determineSignalType 50 = none ∧
    generateSignal 50 100 peW veW "btcusdt" = none := by
  have hadj : monitorAdjScore 90 peW veW = 90 := by
    norm_num [monitorAdjScore, adjustedScore, peW, veW]
  have hadj2 : monitorAdjScore 50 peW veW = 50 := by
    norm_num [monitorAdjScore, adjustedScore, peW, veW]
  refine ⟨(signal_categorization_total 90 100 peW veW "btcusdt").2.2.2.2.1
      (by rw [hadj]; norm_num) (by norm_num [veW]) (by norm_num [peW]),
    (signal_categorization_total 90 100 peW veW "btcusdt").2.1 50
      (by norm_num) (by norm_num),
    (signal_categorization_total 50 100 peW veW "btcusdt").1
      (by rw [hadj2]; norm_num) (by rw [hadj2]; norm_num)⟩

/-- Claim C10: the adjusted score equals the combined final score multiplied
by factors drawn from {1, 0.9, 0.85, 0.8}; hence for a non-negative final
score the adjusted score lies in [0, final score], and an emitted
`strong_buy` implies the unadjusted final score was already at least 80. -/
theorem adjusted_score_factors (f pp pv vq pq : ℚ) :
    (∃ c1 c2 c3 : ℚ, (c1 = 1 ∨ c1 = 0.8) ∧ (c2 = 1 ∨ c2 = 0.9) ∧
      (c3 = 1 ∨ c3 = 0.85 ∨ c3 = 0.9) ∧
      adjustedScore f pp pv vq pq = f * c1 * c2 * c3) ∧
    (0 ≤ f → 0 ≤ adjustedScore f pp pv vq pq ∧
      adjustedScore f pp pv vq pq ≤ f) ∧
    (∀ (cp : ℚ) (pe : PriceEval) (ve : VolumeEval) (sym : String)
        (sig : GenSignal),
      pe.relativePosition = pp → pe.volatility = pv → ve.volumeQ = vq →
      ve.pressureQ = pq → 0 ≤ f →
      generateSignal f cp pe ve sym = some sig →
      sig.sigType = SignalType.strongBuy → 80 ≤ f) := by
  refine ⟨adjustedScore_cases f pp pv vq pq, ?_, ?_⟩
  · intro h0
    exact ⟨adjustedScore_nonneg _ _ _ _ h0, adjustedScore_le_self _ _ _ _ h0⟩
  · intro cp pe ve sym sig hpp hpv hvq hpq h0 hgen hsb
    obtain ⟨t, hst, hty, hsc⟩ := generateSignal_parts hgen
    rw [hty] at hsb
    rw [hsb] at hst
    have h80 : 80 ≤ monitorAdjScore f pe ve := signalTypeOf_strongBuy hst
    have hle : monitorAdjScore f pe ve ≤ f := by
      unfold monitorAdjScore
      exact adjustedScore_le_self _ _ _ _ h0
    linarith

theorem adjusted_score_factors_witness :
    0 ≤ adjustedScore 100 0.9 0.1 6 0.5 ∧
    adjustedScore 100 0.9 0.1 6 0.5 ≤ 100 :=
  (adjusted_score_factors 100 0.9 0.1 6 0.5).2.1 (by norm_num)

/-- The ranked symbol lists returned by `MarketScanner.get_top_symbols`
(`{'volume': ..., 'gainers': ..., 'losers': ...}`); the scanner has already
restricted to USDT pairs, excluded stable-coin and leveraged-token pairs and
lowercased the tickers. -/
structure TopSymbols where
  volume : List String
  gainers : List String
  losers : List String

/-- `str.lower` character by character. -/
def pyLower (s : String) : String := ⟨s.data.map Char.toLower⟩

/-- The new monitoring list computed by `MarketMonitor.update_monitoring_list`:
the set union of the three ranked lists, lowercased.  The user-supplied
`user_define_symbols` are NOT added back in. -/
def newMonitoredSymbols (top : TopSymbols) : List String :=
  ((top.volume ++ top.gainers ++ top.losers).dedup).map pyLower

/-- `MarketMonitor.update_monitoring_list`: computes `added` and `removed`
as the set differences against the current `self.symbols`, replaces
`self.symbols` with the new list, creates fresh buffers for added symbols and
pops every per-symbol entry for removed symbols.  Returns the new state with
the `(added, removed)` diff. -/
def updateMonitoringList (st : MonitorState) (top : TopSymbols) :
    MonitorState × List String × List String :=
  let newSymbols := newMonitoredSymbols top
  let added := newSymbols.filter fun s => decide (s ∉ st.symbols)
  let removed := st.symbols.filter fun s => decide (s ∉ newSymbols)
  ({ st with
      symbols := newSymbols
      klineBuffers := fun s =>
        if s ∈ added then some [] else
        if s ∈ removed then none else st.klineBuffers s
      volumeBuffers := fun s =>
        if s ∈ added then some [] else
        if s ∈ removed then none else st.volumeBuffers s
      keyLevels := fun s => if s ∈ removed then none else st.keyLevels s
      latestData := fun s => if s ∈ removed then none else st.latestData s
      lastAlertTime := fun s =>
        if s ∈ removed then none else st.lastAlertTime s },
    added, removed)

/-- A state whose only monitored symbol is the user-defined `dogeusdt`
(`main()` starts the monitor with `symbols = ['DOGEUSDT']`). -/
def stDoge : MonitorState where
  userDefineSymbols := ["dogeusdt"]
  symbols := ["dogeusdt"]
  klineBuffers := fun s => if s = "dogeusdt" then some [] else none
  volumeBuffers := fun s => if s = "dogeusdt" then some [] else none
  keyLevels := fun _ => none
  latestData := fun _ => none
  lastAlertTime := fun _ => none

/-- A scan result that does not rank the user-defined symbol. -/
def topW : TopSymbols := ⟨["btcusdt"], [], []⟩

/-- Claim C7, counterexample: `update_monitoring_list` never unions the
always-monitored user-defined core set into the new list, so the core symbol
`dogeusdt` — absent from the ranked lists — is removed: it lands in the
`removed` diff, disappears from the monitored list, and its buffers are
popped. -/
theorem core_symbols_not_preserved_cex :
    "dogeusdt" ∈ stDoge.userDefineSymbols ∧
    "dogeusdt" ∈ (updateMonitoringList stDoge topW).2.2 ∧
    "dogeusdt" ∉ (updateMonitoringList stDoge topW).1.symbols ∧
    (updateMonitoringList stDoge topW).1.klineBuffers "dogeusdt" = none ∧
    "dogeusdt" ∉ newMonitoredSymbols topW := by
  exact ⟨by decide, by decide, by decide, by decide, by decide⟩

/-- Two prior symbols `{aaausdt, bbbusdt}` with empty per-symbol maps. -/
def stAB : MonitorState where
  userDefineSymbols := []
  symbols := ["aaausdt", "bbbusdt"]
  klineBuffers := fun _ => none
  volumeBuffers := fun _ => none
  keyLevels := fun _ => none
  latestData := fun _ => none
  lastAlertTime := fun _ => none

/-- A scan result ranking `{bbbusdt, cccusdt}`. -/
def topBC : TopSymbols := ⟨["bbbusdt"], ["cccusdt"], []⟩

/-- Claim C7, amended: the new monitored set is exactly the lowercased union
of the provider's three ranked lists (each already denylist-filtered by the
scanner) — without the always-monitored core set — and the reported diff
satisfies `added = new − prior` and `removed = prior − new`; removed symbols
(including user-defined ones) lose every per-symbol entry, added symbols get
fresh buffers, and with prior `{aaausdt, bbbusdt}` and new ranked
`{bbbusdt, cccusdt}` the diff is `added = {cccusdt}`,
`removed = {aaausdt}`. -/
theorem update_monitoring_diff (st : MonitorState) (top : TopSymbols)
    (s : String) :
    (s ∈ newMonitoredSymbols top ↔
      s ∈ top.volume.map pyLower ∨ s ∈ top.gainers.map pyLower ∨
      s ∈ top.losers.map pyLower) ∧
    (s ∈ (updateMonitoringList st top).2.1 ↔
      s ∈ newMonitoredSymbols top ∧ s ∉ st.symbols) ∧
    (s ∈ (updateMonitoringList st top).2.2 ↔
      s ∈ st.symbols ∧ s ∉ newMonitoredSymbols top) ∧
    (updateMonitoringList st top).1.symbols = newMonitoredSymbols top ∧
    (s ∈ (updateMonitoringList st top).2.2 →
      (updateMonitoringList st top).1.klineBuffers s = none ∧
      (updateMonitoringList st top).1.volumeBuffers s = none ∧
      (updateMonitoringList st top).1.keyLevels s = none ∧
      (updateMonitoringList st top).1.latestData s = none ∧
      (updateMonitoringList st top).1.lastAlertTime s = none) ∧
    (s ∈ (updateMonitoringList st top).2.1 →
      (updateMonitoringList st top).1.klineBuffers s = some [] ∧
      (updateMonitoringList st top).1.volumeBuffers s = some []) ∧
    ((updateMonitoringList stAB topBC).2.1 = ["cccusdt"] ∧
      (updateMonitoringList stAB topBC).2.2 = ["aaausdt"]) := by
  have hadded : ∀ x, x ∈ (updateMonitoringList st top).2.1 ↔
      x ∈ newMonitoredSymbols top ∧ x ∉ st.symbols := by
    intro x
    simp [updateMonitoringList, List.mem_filter]
  have hremoved : ∀ x, x ∈ (updateMonitoringList st top).2.2 ↔
      x ∈ st.symbols ∧ x ∉ newMonitoredSymbols top := by
    intro x
    simp [updateMonitoringList, List.mem_filter]
  refine ⟨?_, hadded s, hremoved s, rfl, ?_, ?_, by decide, by decide⟩
  · simp only [newMonitoredSymbols, List.mem_map, List.mem_dedup,
      List.mem_append, or_and_right, exists_or]
    exact or_assoc
  · intro hrem
    have hs := (hremoved s).mp hrem
    have hnotadd : s ∉ (updateMonitoringList st top).2.1 := by
      intro hadd
      exact hs.2 ((hadded s).mp hadd).1
    refine ⟨?_, ?_, ?_, ?_, ?_⟩
    · simp only [updateMonitoringList] at hrem hnotadd ⊢
      rw [if_neg hnotadd, if_pos hrem]
    · simp only [updateMonitoringList] at hrem hnotadd ⊢
      rw [if_neg hnotadd, if_pos hrem]
    · simp only [updateMonitoringList] at hrem ⊢
      rw [if_pos hrem]
    · simp only [updateMonitoringList] at hrem ⊢
      rw [if_pos hrem]
    · simp only [updateMonitoringList] at hrem ⊢
      rw [if_pos hrem]
  · intro hadd
    have hnotrem : s ∉ (updateMonitoringList st top).2.2 := by
      intro hrem
      exact ((hremoved s).mp hrem).2 ((hadded s).mp hadd).1
    constructor <;>
      simp only [updateMonitoringList] at hadd hnotrem ⊢ <;>
      rw [if_pos hadd]

theorem update_monitoring_diff_witness :
    (updateMonitoringList stDoge topW).1.lastAlertTime "dogeusdt" = none ∧
    "cccusdt" ∈ (updateMonitoringList stAB topBC).2.1 := by
  have h := update_monitoring_diff stDoge topW "dogeusdt"
  have hrem : "dogeusdt" ∈ (updateMonitoringList stDoge topW).2.2 :=
    (h.2.2.1).mpr ⟨by decide, by decide⟩
  have h2 := update_monitoring_diff stAB topBC "cccusdt"
  refine ⟨(h.2.2.2.2.1 hrem).2.2.2.2, ?_⟩
  exact (h2.2.1).mpr ⟨by decide, by decide⟩

/-- Python 3 `round` to the nearest integer (banker's rounding: ties go to
the even integer), over rationals. -/
def pyRoundInt (q : ℚ) : ℤ :=
  if q - ⌊q⌋ < 1 / 2 then ⌊q⌋
  else if 1 / 2 < q - ⌊q⌋ then ⌊q⌋ + 1
  else if ⌊q⌋ % 2 = 0 then ⌊q⌋ else ⌊q⌋ + 1

/-- Python `round(q, n)` for non-negative digit counts. -/
def pyRound (q : ℚ) (n : ℕ) : ℚ := (pyRoundInt (q * 10 ^ n) : ℚ) / 10 ^ n

/-- `LevelsFinder.find_key_levels`'s `format_price`: two decimals from 100
up, three decimals from 1 up, four decimals below. -/
def formatPrice (p : ℚ) : ℚ :=
  if 100 ≤ p then pyRound p 2
  else if 1 ≤ p then pyRound p 3
  else pyRound p 4

/-- The seven pivot levels of `calculate_pivot_levels(h, l, c)`. -/
structure PivotSet where
  r3 : ℚ
  r2 : ℚ
  r1 : ℚ
  pivot : ℚ
  s1 : ℚ
  s2 : ℚ
  s3 : ℚ

/-- `calculate_pivot_levels` in `LevelsFinder.find_key_levels`. -/
def calculatePivotLevels (h l c : ℚ) : PivotSet :=
  let pivot := (h + l + c) / 3
  let r1 := 2 * pivot - l
  let r2 := pivot + (h - l)
  let r3 := r1 + (h - l)
  let s1 := 2 * pivot - h
  let s2 := pivot - (h - l)
  let s3 := s1 - (h - l)
  ⟨r3, r2, r1, pivot, s1, s2, s3⟩

/-- The indicator values consumed by `LevelsFinder.find_key_levels`: the
last Bollinger band values, SAR and moving averages produced by `talib`
(external collaborators), and the bars at indices `-20` and `-50` feeding
the two pivot computations. -/
structure LevelInputs where
  bbUpper : ℚ
  bbLower : ℚ
  sar : ℚ
  ma20 : ℚ
  ma50 : ℚ
  ma120 : ℚ
  h20 : ℚ
  l20 : ℚ
  c20 : ℚ
  h50 : ℚ
  l50 : ℚ
  c50 : ℚ

/-- The `resistance_levels` set literal of `find_key_levels`: Bollinger
upper band, SAR, and the short/medium R3, R2, R1 pivots (a Python `set`,
modelled as a deduplicated list). -/
def resistanceCandidates (li : LevelInputs) : List ℚ :=
  let ps := calculatePivotLevels li.h20 li.l20 li.c20
  let pm := calculatePivotLevels li.h50 li.l50 li.c50
  [li.bbUpper, li.sar, ps.r3, ps.r2, ps.r1, pm.r3, pm.r2, pm.r1].dedup

/-- The `support_levels` set literal: Bollinger lower band, MA20/MA50/MA120
and the short/medium S1, S2, S3 pivots. -/
def supportCandidates (li : LevelInputs) : List ℚ :=
  let ps := calculatePivotLevels li.h20 li.l20 li.c20
  let pm := calculatePivotLevels li.h50 li.l50 li.c50
  [li.bbLower, li.ma20, li.ma50, li.ma120,
    ps.s1, ps.s2, ps.s3, pm.s1, pm.s2, pm.s3].dedup

/-- The candidate step sizes of `generate_levels`. -/
def levelSteps : List ℚ := [0.01, 0.02, 0.03, 0.04, 0.05]

/-- The step used for the `i`-th generated level:
`steps[min(i, len(steps) - 1)]`. -/
def levelStep (i : ℕ) : ℚ := levelSteps.getD (min i 4) 0

/-- `generate_levels(base_price, count, is_resistance)`: the `i`-th candidate
uses step `levelStep i`; resistance candidates `base * (1 + step)` are kept
while they stay under `max_up`, support candidates `base * (1 - step)` while
they stay above `max_down`. -/
def generateLevels (b : ℚ) (count : ℕ) (isResistance : Bool)
    (maxUp maxDown : ℚ) : List ℚ :=
  if isResistance then
    ((List.range count).map fun i =>
      b * (1 + levelStep i)).filter fun x => decide (x ≤ maxUp)
  else
    ((List.range count).map fun i =>
      b * (1 - levelStep i)).filter fun x => decide (maxDown ≤ x)

/-- `filter_levels`'s inner loop once a first level has been kept: keep a
candidate only when it is at least `min_gap` away from the last kept one. -/
def filterLevelsAux (minGap : ℚ) (last : ℚ) : List ℚ → List ℚ
  | [] => []
  | x :: xs =>
      if minGap ≤ |x - last| then x :: filterLevelsAux minGap x xs
      else filterLevelsAux minGap last xs

/-- `filter_levels(levels, min_gap)` of `find_key_levels`: the first level is
always kept (`not result`), later ones only when far enough from the last
kept one. -/
def filterLevels (minGap : ℚ) : List ℚ → List ℚ
  | [] => []
  | x :: xs => x :: filterLevelsAux minGap x xs

/-- The sorted in-band resistance candidates (`valid_resistances`):
candidates strictly above the current price and at most 6 % above it,
sorted ascending. -/
def validResistances (li : LevelInputs) (cp : ℚ) : List ℚ :=
  List.insertionSort (· ≤ ·)
    ((resistanceCandidates li).filter fun p => decide (cp < p ∧ p ≤ cp * 1.06))

/-- The sorted in-band support candidates (`valid_supports`): candidates
strictly below the current price and at most 6 % below it, sorted
descending (`sorted(..., reverse=True)`). -/
def validSupports (li : LevelInputs) (cp : ℚ) : List ℚ :=
  List.insertionSort (· ≥ ·)
    ((supportCandidates li).filter fun p => decide (cp * 0.94 ≤ p ∧ p < cp))

/-- The `resistances` list of `find_key_levels` before formatting: thin the
valid candidates with `filter_levels(min_gap = 1 %)`, and if fewer than three
remain, extend with `generate_levels` from the last (largest) one, or from
the current price when none remain. -/
def resistancesPre (li : LevelInputs) (cp : ℚ) : List ℚ :=
  let r := filterLevels (cp * 0.01) (validResistances li cp)
  if r.length < 3 then
    r ++ generateLevels (r.getLast?.getD cp) (3 - r.length) true
      (cp * 1.06) (cp * 0.94)
  else r

/-- The `supports` list before formatting, symmetrically (the last kept
support is the smallest one). -/
def supportsPre (li : LevelInputs) (cp : ℚ) : List ℚ :=
  let r := filterLevels (cp * 0.01) (validSupports li cp)
  if r.length < 3 then
    r ++ generateLevels (r.getLast?.getD cp) (3 - r.length) false
      (cp * 1.06) (cp * 0.94)
  else r

/-- `LevelsFinder.find_key_levels(df, current_price)`: return the first
three resistances and supports, formatted with `format_price`. -/
def findKeyLevels (li : LevelInputs) (cp : ℚ) : KeyLevels :=
  ⟨((resistancesPre li cp).take 3).map formatPrice,
    ((supportsPre li cp).take 3).map formatPrice⟩

lemma pyRoundInt_ge_floor (q : ℚ) : ⌊q⌋ ≤ pyRoundInt q := by
  unfold pyRoundInt
  split_ifs <;> omega

lemma pyRoundInt_le_floor_add_one (q : ℚ) : pyRoundInt q ≤ ⌊q⌋ + 1 := by
  unfold pyRoundInt
  split_ifs <;> omega

lemma pyRoundInt_mono {a b : ℚ} (h : a ≤ b) : pyRoundInt a ≤ pyRoundInt b := by
  have hf := Int.floor_le_floor h
  rcases eq_or_lt_of_le hf with heq | hlt
  · have hr : a - ⌊a⌋ ≤ b - ⌊b⌋ := by
      have : (⌊a⌋ : ℚ) = (⌊b⌋ : ℚ) := by exact_mod_cast heq
      linarith
    unfold pyRoundInt
    rw [heq] at hr ⊢
    split_ifs <;> first | omega | (exfalso; linarith)
  · have h1 := pyRoundInt_le_floor_add_one a
    have h2 := pyRoundInt_ge_floor b
    omega

lemma pyRoundInt_intCast (z : ℤ) : pyRoundInt (z : ℚ) = z := by
  unfold pyRoundInt
  rw [Int.floor_intCast, if_pos (by norm_num)]

lemma pyRound_mono (n : ℕ) {a b : ℚ} (h : a ≤ b) : pyRound a n ≤ pyRound b n := by
  unfold pyRound
  have hp : (0 : ℚ) < 10 ^ n := by positivity
  have hm : pyRoundInt (a * 10 ^ n) ≤ pyRoundInt (b * 10 ^ n) :=
    pyRoundInt_mono (by nlinarith)
  gcongr

lemma pyRound_intCast (z : ℤ) (n : ℕ) : pyRound (z : ℚ) n = z := by
  unfold pyRound
  have hcast : ((z : ℚ) * 10 ^ n) = ((z * 10 ^ n : ℤ) : ℚ) := by
    push_cast
    ring
  rw [hcast, pyRoundInt_intCast]
  push_cast
  rw [mul_div_assoc, div_self (by positivity : (10 : ℚ) ^ n ≠ 0), mul_one]

lemma formatPrice_mono {a b : ℚ} (h : a ≤ b) : formatPrice a ≤ formatPrice b := by
  have h100 : ∀ k, pyRound (100 : ℚ) k = 100 := by
    intro k
    have := pyRound_intCast 100 k
    norm_num at this
    exact this
  have h1 : ∀ k, pyRound (1 : ℚ) k = 1 := by
    intro k
    have := pyRound_intCast 1 k
    norm_num at this
    exact this
  unfold formatPrice
  split_ifs with ha1 hb1 hb2 ha2 hb3 hb4 hb5 hb6
  · exact pyRound_mono 2 h
  · exfalso; linarith
  · exfalso; linarith
  · calc pyRound a 3 ≤ pyRound 100 3 := pyRound_mono 3 (by linarith)
      _ = 100 := h100 3
      _ = pyRound 100 2 := (h100 2).symm
      _ ≤ pyRound b 2 := pyRound_mono 2 hb3
  · exact pyRound_mono 3 h
  · exfalso; linarith
  · calc pyRound a 4 ≤ pyRound 1 4 := pyRound_mono 4 (by linarith)
      _ = 1 := h1 4
      _ ≤ 100 := by norm_num
      _ = pyRound 100 2 := (h100 2).symm
      _ ≤ pyRound b 2 := pyRound_mono 2 hb5
  · calc pyRound a 4 ≤ pyRound 1 4 := pyRound_mono 4 (by linarith)
      _ = 1 := h1 4
      _ = pyRound 1 3 := (h1 3).symm
      _ ≤ pyRound b 3 := pyRound_mono 3 hb6
  · exact pyRound_mono 4 h

lemma filterLevelsAux_sublist (g : ℚ) :
    ∀ (l : List ℚ) (last : ℚ), (filterLevelsAux g last l).Sublist l := by
  intro l
  induction l with
  | nil => intro last; simp [filterLevelsAux]
  | cons x xs ih =>
      intro last
      unfold filterLevelsAux
      split_ifs with hgap
      · exact List.Sublist.cons₂ x (ih x)
      · exact List.Sublist.cons x (ih last)

lemma filterLevels_sublist (g : ℚ) (l : List ℚ) :
    (filterLevels g l).Sublist l := by
  cases l with
  | nil => simp [filterLevels]
  | cons x xs => exact List.Sublist.cons₂ x (filterLevelsAux_sublist g xs x)

lemma pairwise_rel_getLastD (r : ℚ → ℚ → Prop) (hrefl : ∀ a : ℚ, r a a) :
    ∀ (l : List ℚ), List.Pairwise r l → ∀ a ∈ l, ∀ d : ℚ,
      r a (l.getLast?.getD d) := by
  intro l
  induction l with
  | nil => intro _ a ha _; cases ha
  | cons x xs ih =>
      intro hp a ha d
      cases xs with
      | nil =>
          simp only [List.mem_singleton] at ha
          subst ha
          simpa using hrefl a
      | cons y ys =>
          rw [List.getLast?_cons_cons]
          have hhead := (List.pairwise_cons.mp hp).1
          have hp2 : List.Pairwise r (y :: ys) := (List.pairwise_cons.mp hp).2
          rcases List.mem_cons.mp ha with rfl | hmem
          · have hlast : (y :: ys).getLast?.getD d ∈ y :: ys := by
              cases hx : (y :: ys).getLast? with
              | none => simp at hx
              | some z => simpa using List.mem_of_mem_getLast? hx
            exact hhead _ hlast
          · exact ih hp2 a hmem d

lemma levelStep_eq (i : ℕ) :
    levelStep i = if i = 0 then 0.01 else if i = 1 then 0.02
      else if i = 2 then 0.03 else if i = 3 then 0.04 else 0.05 := by
  unfold levelStep levelSteps
  rcases i with _ | _ | _ | _ | n
  · rfl
  · rfl
  · rfl
  · rfl
  · have hm : min (n + 4) 4 = 4 := by omega
    rw [hm]
    simp

lemma levelStep_bounds (i : ℕ) : 1 / 100 ≤ levelStep i ∧ levelStep i ≤ 1 / 20 := by
  rw [levelStep_eq]
  split_ifs <;> norm_num

lemma levelStep_mono {i j : ℕ} (hij : i ≤ j) : levelStep i ≤ levelStep j := by
  rw [levelStep_eq i, levelStep_eq j]
  split_ifs <;> try norm_num
  all_goals exfalso
  all_goals omega

lemma generateLevels_res (b : ℚ) (hb : 0 < b) (count : ℕ) (mu md : ℚ) :
    List.Sorted (· ≤ ·) (generateLevels b count true mu md) ∧
    ∀ x ∈ generateLevels b count true mu md, b < x := by
  constructor
  · apply List.Sorted.filter
    refine List.Pairwise.map _ ?_ (List.pairwise_lt_range count)
    intro i j hij
    have hs := levelStep_mono (le_of_lt hij)
    nlinarith
  · intro x hx
    unfold generateLevels at hx
    simp only [if_pos] at hx
    have hx2 := List.mem_of_mem_filter hx
    simp only [List.mem_map, List.mem_range] at hx2
    obtain ⟨i, _, rfl⟩ := hx2
    have hs := (levelStep_bounds i).1
    nlinarith

lemma generateLevels_sup (b : ℚ) (hb : 0 ≤ b) (count : ℕ) (mu md : ℚ) :
    List.Sorted (· ≥ ·) (generateLevels b count false mu md) ∧
    ∀ x ∈ generateLevels b count false mu md, x ≤ b := by
  constructor
  · apply List.Sorted.filter
    refine List.Pairwise.map _ ?_ (List.pairwise_lt_range count)
    intro i j hij
    have hs := levelStep_mono (le_of_lt hij)
    nlinarith
  · intro x hx
    unfold generateLevels at hx
    simp only [Bool.false_eq_true, if_neg] at hx
    have hx2 := List.mem_of_mem_filter hx
    simp only [List.mem_map, List.mem_range] at hx2
    obtain ⟨i, _, rfl⟩ := hx2
    have hs := (levelStep_bounds i).1
    nlinarith

lemma validResistances_sorted (li : LevelInputs) (cp : ℚ) :
    List.Sorted (· ≤ ·) (validResistances li cp) :=
  List.sorted_insertionSort _ _

lemma validSupports_sorted (li : LevelInputs) (cp : ℚ) :
    List.Sorted (· ≥ ·) (validSupports li cp) :=
  List.sorted_insertionSort _ _

lemma validResistances_mem {li : LevelInputs} {cp x : ℚ}
    (hx : x ∈ validResistances li cp) : cp < x ∧ x ≤ cp * 1.06 := by
  unfold validResistances at hx
  have h1 := (List.perm_insertionSort _ _).mem_iff.mp hx
  have h2 := List.of_mem_filter h1
  simpa using h2

lemma validSupports_mem {li : LevelInputs} {cp x : ℚ}
    (hx : x ∈ validSupports li cp) : cp * 0.94 ≤ x ∧ x < cp := by
  unfold validSupports at hx
  have h1 := (List.perm_insertionSort _ _).mem_iff.mp hx
  have h2 := List.of_mem_filter h1
  simpa using h2

lemma resistancesPre_sorted (li : LevelInputs) (cp : ℚ) (hcp : 0 < cp) :
    List.Sorted (· ≤ ·) (resistancesPre li cp) := by
  simp only [resistancesPre]
  have hsr : List.Sorted (· ≤ ·)
      (filterLevels (cp * 0.01) (validResistances li cp)) :=
    List.Pairwise.sublist (filterLevels_sublist _ _) (validResistances_sorted li cp)
  have hsubset := (filterLevels_sublist (cp * 0.01) (validResistances li cp)).subset
  split_ifs with hlen
  · have hbase : 0 < (filterLevels (cp * 0.01)
        (validResistances li cp)).getLast?.getD cp := by
      cases hb : (filterLevels (cp * 0.01) (validResistances li cp)).getLast? with
      | none => simpa [hb] using hcp
      | some y =>
          have hy := validResistances_mem (hsubset (List.mem_of_mem_getLast? hb))
          simp only [hb, Option.getD_some]
          linarith
    obtain ⟨hgs, hgm⟩ := generateLevels_res _ hbase
      (3 - (filterLevels (cp * 0.01) (validResistances li cp)).length)
      (cp * 1.06) (cp * 0.94)
    refine List.pairwise_append.mpr ⟨hsr, hgs, ?_⟩
    intro a ha c hc
    have h1 := pairwise_rel_getLastD (fun a b => a ≤ b)
      (fun q => le_refl q) _ hsr a ha cp
    have h2 := hgm c hc
    linarith
  · exact hsr

lemma supportsPre_sorted (li : LevelInputs) (cp : ℚ) (hcp : 0 < cp) :
    List.Sorted (· ≥ ·) (supportsPre li cp) := by
  simp only [supportsPre]
  have hsr : List.Sorted (· ≥ ·)
      (filterLevels (cp * 0.01) (validSupports li cp)) :=
    List.Pairwise.sublist (filterLevels_sublist _ _) (validSupports_sorted li cp)
  have hsubset := (filterLevels_sublist (cp * 0.01) (validSupports li cp)).subset
  split_ifs with hlen
  · have hbase : 0 ≤ (filterLevels (cp * 0.01)
        (validSupports li cp)).getLast?.getD cp := by
      cases hb : (filterLevels (cp * 0.01) (validSupports li cp)).getLast? with
      | none => simp only [hb, Option.getD_none]; linarith
      | some y =>
          have hy := validSupports_mem (hsubset (List.mem_of_mem_getLast? hb))
          simp only [hb, Option.getD_some]
          linarith
    obtain ⟨hgs, hgm⟩ := generateLevels_sup _ hbase
      (3 - (filterLevels (cp * 0.01) (validSupports li cp)).length)
      (cp * 1.06) (cp * 0.94)
    refine List.pairwise_append.mpr ⟨hsr, hgs, ?_⟩
    intro a ha c hc
    have h1 := pairwise_rel_getLastD (fun a b => a ≥ b)
      (fun q => le_refl q) _ hsr a ha cp
    have h2 := hgm c hc
    exact le_trans h2 h1
  · exact hsr

/-- Claim C8: for every input history (indicator values and pivot bars) and
every positive current price, `LevelsFinder.find_key_levels` returns at most
3 support prices ordered descending and at most 3 resistance prices ordered
ascending. -/
theorem find_key_levels_bounded_ordered (li : LevelInputs) (cp : ℚ)
    (hcp : 0 < cp) :
    (findKeyLevels li cp).resistances.length ≤ 3 ∧
    (findKeyLevels li cp).supports.length ≤ 3 ∧
    List.Sorted (· ≤ ·) (findKeyLevels li cp).resistances ∧
    List.Sorted (· ≥ ·) (findKeyLevels li cp).supports := by
  have hres : (findKeyLevels li cp).resistances
      = ((resistancesPre li cp).take 3).map formatPrice := by
    simp only [findKeyLevels]
  have hsup : (findKeyLevels li cp).supports
      = ((supportsPre li cp).take 3).map formatPrice := by
    simp only [findKeyLevels]
  rw [hres, hsup]
  refine ⟨?_, ?_, ?_, ?_⟩
  · rw [List.length_map, List.length_take]
    omega
  · rw [List.length_map, List.length_take]
    omega
  · exact List.Pairwise.map _ (fun a b h => formatPrice_mono h)
      (List.Pairwise.sublist (List.take_sublist 3 _)
        (resistancesPre_sorted li cp hcp))
  · exact List.Pairwise.map _ (fun a b h => formatPrice_mono h)
      (List.Pairwise.sublist (List.take_sublist 3 _)
        (supportsPre_sorted li cp hcp))

/-- A degenerate but positive-price input: every indicator equals 1. -/
def liW : LevelInputs := ⟨1, 1, 1, 1, 1, 1, 1, 1, 1, 1, 1, 1⟩

theorem find_key_levels_bounded_ordered_witness :
    0 < (1 : ℚ) ∧
    ((findKeyLevels liW 1).resistances.length ≤ 3 ∧
      (findKeyLevels liW 1).supports.length ≤ 3 ∧
      List.Sorted (· ≤ ·) (findKeyLevels liW 1).resistances ∧
      List.Sorted (· ≥ ·) (findKeyLevels liW 1).supports) :=
  ⟨by norm_num, find_key_levels_bounded_ordered liW 1 (by norm_num)⟩
